import Mathlib

/-!
Verification of the TACT response parser (`src/response/base.rs`,
`src/response/summary.rs`, `src/response/versions.rs`) of the `wownow`
repository, as a shallow embedding in Lean 4.

Strings are modelled as `List Char`.  The hex decoder in the source walks
`value.as_bytes().chunks(2)`; we walk chunks of the character list instead.
The two views agree on every outcome here: a chunk parses as a hex byte only
when all of its characters are ASCII hex digits (one byte each in UTF-8), and
any non-ASCII character makes both views fail with an integer-parse error.
Machine integers (`u32`, `u8`, `usize`) are `Nat` with explicit bounds.
-/

namespace Wownow

/-- A string, modelled as its list of characters. -/
abbrev Str := List Char

instance {ε α : Type} [DecidableEq ε] [DecidableEq α] : DecidableEq (Except ε α) := fun
  | .ok a, .ok b =>
    match decEq a b with
    | .isTrue h => .isTrue (h ▸ rfl)
    | .isFalse h => .isFalse fun hc => h (Except.ok.inj hc)
  | .ok _, .error _ => .isFalse fun hc => Except.noConfusion hc
  | .error _, .ok _ => .isFalse fun hc => Except.noConfusion hc
  | .error e, .error e' =>
    match decEq e e' with
    | .isTrue h => .isTrue (h ▸ rfl)
    | .isFalse h => .isFalse fun hc => h (Except.error.inj hc)

/-- The kinds of `std::num::ParseIntError` that integer parsing can produce. -/
inductive ParseIntError where
  | empty
  | invalidDigit
  | posOverflow
  deriving DecidableEq, Repr

/-- The `Error` enum of `src/response/base.rs` (the `Utf8` variant is not
modelled: inputs are already strings here). -/
inductive Error where
  | UnknownTypeName (s : Str)
  | ExpectedColon (s : Str)
  | ExpectedBang (s : Str)
  | MultipleSeqn
  | MismatchedRecordLength (got expected : Nat)
  | ExpectedHeaderLine
  | ExpectedSeqnLine
  | ExpectedField (s : Str)
  | EmptyField (s : Str)
  | UnexpectedType (got expected : Str)
  | UnparseableInt (e : ParseIntError)
  deriving DecidableEq, Repr

/-- `char::to_digit` support: the value of an ASCII hex digit, if any.
Mirrors the ranges `0-9`, `a-f`, `A-F` used by Rust for radixes up to 16. -/
def hexDigitVal? (c : Char) : Option Nat :=
  let n := c.toNat
  if 48 ≤ n ∧ n ≤ 57 then some (n - 48)
  else if 97 ≤ n ∧ n ≤ 102 then some (n - 87)
  else if 65 ≤ n ∧ n ≤ 70 then some (n - 55)
  else none

/-- `char::to_digit(radix)` for the radixes used by the source (10 and 16). -/
def toDigitRadix (radix : Nat) (c : Char) : Option Nat :=
  match hexDigitVal? c with
  | some v => if v < radix then some v else none
  | none => none

/-- The accumulation loop of `<uN>::from_str_radix`: each digit multiplies the
accumulator and adds, failing with `posOverflow` as soon as the value would no
longer fit below `bound`, and with `invalidDigit` on a non-digit. -/
def fromStrRadixCore (radix bound : Nat) : Str → Nat → Except ParseIntError Nat
  | [], acc => .ok acc
  | c :: rest, acc =>
    match toDigitRadix radix c with
    | none => .error .invalidDigit
    | some d =>
      if acc * radix + d < bound then fromStrRadixCore radix bound rest (acc * radix + d)
      else .error .posOverflow

/-- `<uN>::from_str_radix` for an unsigned type with exclusive bound `bound`:
empty input is `Empty`, a lone `+` is `InvalidDigit`, a leading `+` is
stripped, and a `-` (unsigned type) is rejected as an invalid digit by the
main loop. -/
def fromStrRadix (radix bound : Nat) (s : Str) : Except ParseIntError Nat :=
  match s with
  | [] => .error .empty
  | c :: rest =>
    if c = '+' then
      if rest = [] then .error .invalidDigit
      else fromStrRadixCore radix bound rest 0
    else fromStrRadixCore radix bound (c :: rest) 0

/-- `str::parse::<u32>()`. -/
def parseU32 (s : Str) : Except ParseIntError Nat :=
  fromStrRadix 10 (2 ^ 32) s

/-- `str::parse::<usize>()` (64-bit target). -/
def parseUsize (s : Str) : Except ParseIntError Nat :=
  fromStrRadix 10 (2 ^ 64) s

/-- `str::split_once(sep)`: split at the first occurrence of `sep`. -/
def splitOnceList (sep : Char) : Str → Option (Str × Str)
  | [] => none
  | c :: rest =>
    if c = sep then some ([], rest)
    else (splitOnceList sep rest).map (fun p => (c :: p.1, p.2))

/-- `str::split(sep)`: split on every occurrence of `sep`; the empty string
yields one empty piece, like Rust's `split`. -/
def splitOnChar (sep : Char) : Str → List Str
  | [] => [[]]
  | c :: rest =>
    match splitOnChar sep rest with
    | [] => [[]]
    | cur :: parts => if c = sep then [] :: cur :: parts else (c :: cur) :: parts

/-- `str::strip_prefix`: `stripPre marker l` is the remainder of `l` after
`marker`, when `marker` is a leading segment of `l`. -/
def stripPre : Str → Str → Option Str
  | [], l => some l
  | _ :: _, [] => none
  | m :: ms, c :: cs => if c = m then stripPre ms cs else none

/-- The `TypeName` enum: the closed set of column type names. -/
inductive TypeName where
  | string
  | hex
  | dec
  deriving DecidableEq, Repr

/-- `str::to_uppercase`, per character (the ASCII tokens of this format are
unaffected by the full Unicode mapping). -/
def rustToUppercase (s : Str) : Str := s.map Char.toUpper

/-- `TryFrom<&str> for TypeName`: uppercase, then match the three names. -/
def parseTypeName (name : Str) : Except Error TypeName :=
  if rustToUppercase name = "STRING".data then .ok .string
  else if rustToUppercase name = "HEX".data then .ok .hex
  else if rustToUppercase name = "DEC".data then .ok .dec
  else .error (.UnknownTypeName name)

/-- The `Type` struct: a type name plus a declared length. -/
structure Ty where
  name : TypeName
  length : Nat
  deriving DecidableEq, Repr

/-- `Display for TypeName`: the canonical uppercase spelling. -/
def typeNameStr : TypeName → Str
  | .string => "STRING".data
  | .hex => "HEX".data
  | .dec => "DEC".data

/-- `Display for Type`: `"{NAME}:{LENGTH}"`. -/
def tyToString (t : Ty) : Str :=
  typeNameStr t.name ++ ':' :: Nat.toDigits 10 t.length

/-- `TryFrom<&str> for Type`: split on the first `:`, parse the length as a
`usize`, parse the name. -/
def parseTy (s : Str) : Except Error Ty :=
  match splitOnceList ':' s with
  | none => .error (.ExpectedColon s)
  | some (name, lenPart) =>
    match parseUsize lenPart with
    | .error e => .error (.UnparseableInt e)
    | .ok len =>
      match parseTypeName name with
      | .error e => .error e
      | .ok tn => .ok ⟨tn, len⟩

/-- The `Header` struct: a column name and its declared type. -/
structure Header where
  name : Str
  type_ : Ty
  deriving DecidableEq, Repr

/-- `TryFrom<&str> for Header`: split on the first `!`. -/
def parseHeader (s : Str) : Except Error Header :=
  match splitOnceList '!' s with
  | some (name, tactType) =>
    match parseTy tactType with
    | .error e => .error e
    | .ok t => .ok ⟨name, t⟩
  | none => .error (.ExpectedBang s)

/-- `Iterator::collect::<Result<Vec<_>, _>>()`: map a fallible function over a
list, stopping at the first error. -/
def exceptMapM {ε α β : Type} (f : α → Except ε β) : List α → Except ε (List β)
  | [] => .ok []
  | a :: as =>
    match f a with
    | .error e => .error e
    | .ok b =>
      match exceptMapM f as with
      | .error e => .error e
      | .ok bs => .ok (b :: bs)

/-- `Header::parse_header_line`: split the line on `|` and parse each piece. -/
def parseHeaderLine (s : Str) : Except Error (List Header) :=
  exceptMapM parseHeader (splitOnChar '|' s)

/-- The generic `Response` struct of `base.rs`: sequence number, headers, and
raw records. -/
structure BaseResponse where
  seqn : Nat
  headers : List Header
  records : List (List Str)
  deriving DecidableEq, Repr

/-- The mutable state of the parsing loop in `TryFrom<&str> for Response`. -/
structure PState where
  headers : Option (List Header)
  seqn : Option Nat
  records : List (List Str)
  deriving DecidableEq, Repr

/-- The initial loop state: nothing seen yet. -/
def initState : PState := ⟨none, none, []⟩

/-- The `"## seqn = "` marker. -/
def seqnMarker : Str := "## seqn = ".data

/-- Whether a line is classified as a seqn line (has the marker). -/
def isSeqnLine (l : Str) : Bool := (stripPre seqnMarker l).isSome

/-- One iteration of the parsing loop: classify a line as seqn line, header
line, or data row, and update the state. -/
def stepLine (st : PState) (line : Str) : Except Error PState :=
  match stripPre seqnMarker line with
  | some numberPart =>
    match st.seqn with
    | some _ => .error .MultipleSeqn
    | none =>
      match parseU32 numberPart with
      | .error e => .error (.UnparseableInt e)
      | .ok n => .ok { st with seqn := some n }
  | none =>
    match st.headers with
    | none =>
      match parseHeaderLine line with
      | .error e => .error e
      | .ok hs => .ok { st with headers := some hs }
    | some hs =>
      let record := splitOnChar '|' line
      if record.length ≠ hs.length then
        .error (.MismatchedRecordLength record.length hs.length)
      else .ok { st with records := st.records ++ [record] }

/-- The parsing loop over all lines. -/
def runLines (st : PState) : List Str → Except Error PState
  | [] => .ok st
  | l :: ls =>
    match stepLine st l with
    | .error e => .error e
    | .ok st' => runLines st' ls

/-- The checks after the loop: a header line and a seqn line must have been
seen. -/
def finalize (st : PState) : Except Error BaseResponse :=
  match st.headers with
  | none => .error .ExpectedHeaderLine
  | some hs =>
    match st.seqn with
    | none => .error .ExpectedSeqnLine
    | some n => .ok ⟨n, hs, st.records⟩

/-- `TryFrom<&str> for Response`, over an explicit list of lines. -/
def parseResponseLines (ls : List Str) : Except Error BaseResponse :=
  match runLines initState ls with
  | .error e => .error e
  | .ok st => finalize st

/-- One line of `str::lines`: strip at most one trailing `\r`. -/
def stripTrailingCR (l : Str) : Str :=
  match l.reverse with
  | '\r' :: rest => rest.reverse
  | _ => l

/-- `str::lines`: split on `\n`, drop a final empty piece (so a trailing
newline adds no line), and strip one trailing `\r` from each line. -/
def rustLines (s : Str) : List Str :=
  let parts := splitOnChar '\n' s
  let parts := if parts.getLast? = some [] then parts.dropLast else parts
  parts.map stripTrailingCR

/-- `TryFrom<&str> for Response`, from the raw input string. -/
def parseResponse (input : String) : Except Error BaseResponse :=
  parseResponseLines (rustLines input.data)

/-- The `Field` struct: a declared column type together with a raw value. -/
structure Field where
  type_ : Ty
  value : Str
  deriving DecidableEq, Repr

/-- The constant `STRING_TYPE` (`String:0`). -/
def STRING_TYPE : Ty := ⟨.string, 0⟩

/-- The constant `HEX16_TYPE` (`Hex:16`). -/
def HEX16_TYPE : Ty := ⟨.hex, 16⟩

/-- The constant `DEC4_TYPE` (`Dec:4`). -/
def DEC4_TYPE : Ty := ⟨.dec, 4⟩

/-- The result of running a Rust function that returns `Result` but may also
panic: `ok`, an `Error`, or a panic (here: an out-of-bounds slice write). -/
inductive DResult (α : Type) where
  | ok (a : α)
  | err (e : Error)
  | panic
  deriving DecidableEq, Repr

/-- `value.as_bytes().chunks(2)`: consecutive chunks of two, the last chunk
possibly a single element. -/
def chunksTwo : Str → List Str
  | [] => []
  | [a] => [[a]]
  | a :: b :: rest => [a, b] :: chunksTwo rest

/-- The write loop of the optional `Hex16` decoder: parse each chunk as a hex
byte (the parse result is evaluated before the index), then store it at the
running index.  An index outside the 16-byte buffer is an out-of-bounds write,
i.e. a panic. -/
def hexWriteLoop (bytes : List Nat) (idx : Nat) : List Str → DResult (List Nat)
  | [] => .ok bytes
  | chunk :: rest =>
    match fromStrRadix 16 256 chunk with
    | .error e => .err (.UnparseableInt e)
    | .ok v =>
      if idx < 16 then hexWriteLoop (bytes.set idx v) (idx + 1) rest
      else .panic

/-- `TryFrom<&Field> for Option<Hex16>`: require type `Hex:16`; an empty value
is `none`; otherwise run the chunk write loop over a zeroed 16-byte buffer. -/
def decodeOptHex16 (f : Field) : DResult (Option (List Nat)) :=
  if f.type_ ≠ HEX16_TYPE then
    .err (.UnexpectedType (tyToString f.type_) (tyToString HEX16_TYPE))
  else if f.value = [] then .ok none
  else
    match hexWriteLoop (List.replicate 16 0) 0 (chunksTwo f.value) with
    | .ok bs => .ok (some bs)
    | .err e => .err e
    | .panic => .panic

/-- `TryFrom<&Field> for Hex16`: reuse the optional decoder; `none` becomes
`EmptyField` with the type's display string. -/
def decodeHex16 (f : Field) : DResult (List Nat) :=
  match decodeOptHex16 f with
  | .ok none => .err (.EmptyField (tyToString f.type_))
  | .ok (some bs) => .ok bs
  | .err e => .err e
  | .panic => .panic

/-- `TryFrom<&Field> for Dec4`: require type `Dec:4`; parse the value as a
`u32`. -/
def decodeDec4 (f : Field) : Except Error Nat :=
  if f.type_ ≠ DEC4_TYPE then
    .error (.UnexpectedType (tyToString f.type_) (tyToString DEC4_TYPE))
  else
    match parseU32 f.value with
    | .error e => .error (.UnparseableInt e)
    | .ok n => .ok n

/-- `TryFrom<&Field> for String0`: require type `String:0`; pass the value
through.  (The source's error names `DEC4_TYPE` as the expected type.) -/
def decodeString0 (f : Field) : Except Error Str :=
  if f.type_ ≠ STRING_TYPE then
    .error (.UnexpectedType (tyToString f.type_) (tyToString DEC4_TYPE))
  else .ok f.value

/-- The search of `Record::get_field_by_header_name`, carrying the index of
the current header.  The matching header's index selects the value (in the
source an index expression; rows of a parsed table have exactly as many values
as there are headers, so the default is never taken there). -/
def getFieldAux (values : List Str) (name : Str) : List Header → Nat → Option Field
  | [], _ => none
  | h :: hs, idx =>
    if h.name = name then some ⟨h.type_, values.getD idx []⟩
    else getFieldAux values name hs (idx + 1)

/-- `Record::get_field_by_header_name`: the first header with exactly the
given name, paired with the value at its position. -/
def getFieldByHeaderName (headers : List Header) (values : List Str) (name : Str) :
    Option Field :=
  getFieldAux values name headers 0

/-- The `Record` struct of `summary.rs`. -/
structure SummaryRecord where
  product : Str
  seqn : Nat
  flags : Str
  deriving DecidableEq, Repr

/-- `TryFrom<BaseRecord> for summary::Record`: look up `Product`, `Seqn`,
`Flags` in order, decoding each and failing on the first problem. -/
def decodeSummaryRecord (headers : List Header) (values : List Str) :
    Except Error SummaryRecord :=
  match getFieldByHeaderName headers values "Product".data with
  | none => .error (.ExpectedField "Product".data)
  | some fp =>
    match decodeString0 fp with
    | .error e => .error e
    | .ok product =>
      match getFieldByHeaderName headers values "Seqn".data with
      | none => .error (.ExpectedField "Seqn".data)
      | some fs =>
        match decodeDec4 fs with
        | .error e => .error e
        | .ok sq =>
          match getFieldByHeaderName headers values "Flags".data with
          | none => .error (.ExpectedField "Flags".data)
          | some ff =>
            match decodeString0 ff with
            | .error e => .error e
            | .ok flags => .ok ⟨product, sq, flags⟩

/-- The `Response` struct of `summary.rs`. -/
structure SummaryResponse where
  seqn : Nat
  records : List SummaryRecord
  deriving DecidableEq, Repr

/-- `TryFrom<BaseResponse> for summary::Response`: decode every record, in
order, stopping at the first failure. -/
def summaryOfBase (r : BaseResponse) : Except Error SummaryResponse :=
  match exceptMapM (fun row => decodeSummaryRecord r.headers row) r.records with
  | .error e => .error e
  | .ok recs => .ok ⟨r.seqn, recs⟩

/-- `TryFrom<&str> for summary::Response`: parse the table, then project. -/
def decodeSummary (input : String) : Except Error SummaryResponse :=
  match parseResponse input with
  | .error e => .error e
  | .ok base => summaryOfBase base

/-- The `Record` struct of `versions.rs`. -/
structure VersionsRecord where
  region : Str
  build_config : List Nat
  cdn_config : List Nat
  key_ring : Option (List Nat)
  build_id : Nat
  versions_name : Str
  product_config : List Nat
  deriving DecidableEq, Repr

/-- Lift an `Except`-returning decoder into `DResult`. -/
def exToD {α : Type} : Except Error α → DResult α
  | .ok a => .ok a
  | .error e => .err e

/-- `TryFrom<BaseRecord> for versions::Record`: look up and decode `Region`,
`BuildConfig`, `CDNConfig`, `KeyRing`, `BuildId`, `VersionsName`,
`ProductConfig` in order, failing on the first problem (hex decoding may also
panic, which propagates). -/
def decodeVersionsRecord (headers : List Header) (values : List Str) :
    DResult VersionsRecord :=
  match getFieldByHeaderName headers values "Region".data with
  | none => .err (.ExpectedField "Region".data)
  | some f1 =>
    match decodeString0 f1 with
    | .error e => .err e
    | .ok region =>
      match getFieldByHeaderName headers values "BuildConfig".data with
      | none => .err (.ExpectedField "BuildConfig".data)
      | some f2 =>
        match decodeHex16 f2 with
        | .err e => .err e
        | .panic => .panic
        | .ok build_config =>
          match getFieldByHeaderName headers values "CDNConfig".data with
          | none => .err (.ExpectedField "CDNConfig".data)
          | some f3 =>
            match decodeHex16 f3 with
            | .err e => .err e
            | .panic => .panic
            | .ok cdn_config =>
              match getFieldByHeaderName headers values "KeyRing".data with
              | none => .err (.ExpectedField "KeyRing".data)
              | some f4 =>
                match decodeOptHex16 f4 with
                | .err e => .err e
                | .panic => .panic
                | .ok key_ring =>
                  match getFieldByHeaderName headers values "BuildId".data with
                  | none => .err (.ExpectedField "BuildId".data)
                  | some f5 =>
                    match decodeDec4 f5 with
                    | .error e => .err e
                    | .ok build_id =>
                      match getFieldByHeaderName headers values "VersionsName".data with
                      | none => .err (.ExpectedField "VersionsName".data)
                      | some f6 =>
                        match decodeString0 f6 with
                        | .error e => .err e
                        | .ok versions_name =>
                          match getFieldByHeaderName headers values "ProductConfig".data with
                          | none => .err (.ExpectedField "ProductConfig".data)
                          | some f7 =>
                            match decodeHex16 f7 with
                            | .err e => .err e
                            | .panic => .panic
                            | .ok product_config =>
                              .ok ⟨region, build_config, cdn_config, key_ring,
                                   build_id, versions_name, product_config⟩

/-! ### Specification vocabulary -/

/-- Whether an `Except` value is a success. -/
def exIsOk {ε α : Type} : Except ε α → Bool
  | .ok _ => true
  | .error _ => false

/-- The byte value of a hex chunk (0 when the chunk does not parse). -/
def hexByteValD (c : Str) : Nat :=
  match fromStrRadix 16 256 c with
  | .ok v => v
  | .error _ => 0

/-- Whether a character is an ASCII decimal digit. -/
def isDecDigit (c : Char) : Bool := 48 ≤ c.toNat && c.toNat ≤ 57

/-- The base-10 value of a string of decimal digits. -/
def decDigitsVal (v : Str) : Nat := v.foldl (fun a c => a * 10 + (c.toNat - 48)) 0

/-- The number of seqn lines in an input. -/
def countSeqn (ls : List Str) : Nat := ls.countP (fun l => isSeqnLine l)

/-- Errors produced while processing a single line (malformed header token,
type token, number, or row arity), as opposed to the whole-input errors about
seqn/header presence. -/
def isLineFailure : Error → Bool
  | .UnknownTypeName _ => true
  | .ExpectedColon _ => true
  | .ExpectedBang _ => true
  | .UnparseableInt _ => true
  | .MismatchedRecordLength _ _ => true
  | _ => false

/-- The invariant maintained by the parsing loop: before the header line every
record list is empty, and after it every stored row matches the header
arity. -/
def StInv (st : PState) : Prop :=
  (st.headers = none → st.records = []) ∧
  ∀ hs, st.headers = some hs → ∀ r ∈ st.records, r.length = hs.length

/-! ### Theorems -/

lemma chunksTwo_length : ∀ l : Str, (chunksTwo l).length = (l.length + 1) / 2
  | [] => by simp [chunksTwo]
  | [a] => by simp [chunksTwo]
  | a :: b :: rest => by
    simp [chunksTwo, chunksTwo_length rest]
    omega

lemma set_len_append {α : Type} : ∀ (pre : List α) (b : α) (suf : List α) (v : α),
    (pre ++ b :: suf).set pre.length v = pre ++ v :: suf
  | [], _, _, _ => rfl
  | a :: pre, b, suf, v => by
    show a :: (pre ++ b :: suf).set pre.length v = a :: (pre ++ v :: suf)
    rw [set_len_append pre b suf v]

lemma drop_replicate_eq {α : Type} : ∀ (n m : Nat) (a : α),
    (List.replicate m a).drop n = List.replicate (m - n) a := by
  intro n
  induction n with
  | zero => simp
  | succ k ih =>
    intro m a
    cases m with
    | zero => simp
    | succ m' =>
      rw [List.replicate_succ, List.drop_succ_cons, Nat.succ_sub_succ]
      exact ih m' a

lemma hexLoop_ok : ∀ (chunks : List Str) (pre suf : List Nat),
    pre.length + suf.length = 16 → chunks.length ≤ suf.length →
    (∀ c ∈ chunks, exIsOk (fromStrRadix 16 256 c) = true) →
    hexWriteLoop (pre ++ suf) pre.length chunks =
      .ok (pre ++ chunks.map hexByteValD ++ suf.drop chunks.length) := by
  intro chunks
  induction chunks with
  | nil => intro pre suf _ _ _; simp [hexWriteLoop]
  | cons c cs ih =>
    intro pre suf hlen hle hok
    obtain ⟨s0, suf', rfl⟩ : ∃ s0 suf', suf = s0 :: suf' := by
      cases suf with
      | nil => simp at hle
      | cons s0 suf' => exact ⟨s0, suf', rfl⟩
    have hc : fromStrRadix 16 256 c = .ok (hexByteValD c) := by
      have := hok c (List.mem_cons_self c cs)
      cases hfc : fromStrRadix 16 256 c with
      | ok v => simp [hexByteValD, hfc]
      | error e => rw [hfc] at this; simp [exIsOk] at this
    have hidx : pre.length < 16 := by simp at hlen; omega
    rw [hexWriteLoop, hc]
    dsimp only
    rw [if_pos hidx, set_len_append]
    have hstep : pre ++ hexByteValD c :: suf' = (pre ++ [hexByteValD c]) ++ suf' := by
      simp
    rw [hstep]
    have hlen' : (pre ++ [hexByteValD c]).length + suf'.length = 16 := by
      simp at hlen ⊢; omega
    have hle' : cs.length ≤ suf'.length := by simp at hle; omega
    have hok' : ∀ c' ∈ cs, exIsOk (fromStrRadix 16 256 c') = true := fun c' hmem =>
      hok c' (List.mem_cons_of_mem c hmem)
    have hidx' : pre.length + 1 = (pre ++ [hexByteValD c]).length := by simp
    rw [hidx', ih (pre ++ [hexByteValD c]) suf' hlen' hle' hok']
    simp

lemma hexLoop_no_ok_of_long : ∀ (chunks : List Str) (bytes : List Nat) (idx : Nat),
    idx ≤ 16 → 16 < idx + chunks.length → ∀ bs, hexWriteLoop bytes idx chunks ≠ .ok bs := by
  intro chunks
  induction chunks with
  | nil => intro bytes idx h1 h2; simp at h2; omega
  | cons c cs ih =>
    intro bytes idx h1 h2 bs
    rw [hexWriteLoop]
    cases hfc : fromStrRadix 16 256 c with
    | error e => simp
    | ok v =>
      dsimp only
      by_cases hidx : idx < 16
      · rw [if_pos hidx]
        exact ih (bytes.set idx v) (idx + 1) (by omega) (by simp at h2 ⊢; omega) bs
      · rw [if_neg hidx]; simp

lemma hexLoop_no_ok_of_bad : ∀ (chunks : List Str) (bytes : List Nat) (idx : Nat),
    (∃ c ∈ chunks, exIsOk (fromStrRadix 16 256 c) = false) →
    ∀ bs, hexWriteLoop bytes idx chunks ≠ .ok bs := by
  intro chunks
  induction chunks with
  | nil => intro bytes idx h bs; simp at h
  | cons c cs ih =>
    intro bytes idx h bs
    obtain ⟨c0, hc0, hbad⟩ := h
    rw [hexWriteLoop]
    cases hfc : fromStrRadix 16 256 c with
    | error e => simp
    | ok v =>
      dsimp only
      rcases List.mem_cons.mp hc0 with rfl | hmem
      · rw [hfc] at hbad; simp [exIsOk] at hbad
      · by_cases hidx : idx < 16
        · rw [if_pos hidx]
          exact ih (bytes.set idx v) (idx + 1) ⟨c0, hmem, hbad⟩ bs
        · rw [if_neg hidx]; simp

/-- C1 (amended): for a non-empty raw `Hex:16` value, the optional decoder
succeeds exactly when the value is at most 32 characters long and every
two-character chunk (the last possibly a single character) parses as a hex
byte; the result is `some` of the chunk values in order, zero-padded to 16
bytes.  Exactly-32-hex-character values are the case where all 16 bytes come
from the input; the length is otherwise not validated. -/
theorem hex16_opt_decode_characterization (v : Str) (hne : v ≠ []) :
    (decodeOptHex16 ⟨HEX16_TYPE, v⟩ =
        .ok (some ((chunksTwo v).map hexByteValD ++
          List.replicate (16 - (chunksTwo v).length) 0))
      ↔ v.length ≤ 32 ∧ ∀ c ∈ chunksTwo v, exIsOk (fromStrRadix 16 256 c) = true)
    ∧ ∀ bs, decodeOptHex16 ⟨HEX16_TYPE, v⟩ = .ok (some bs) →
        v.length ≤ 32 ∧
        bs = (chunksTwo v).map hexByteValD ++ List.replicate (16 - (chunksTwo v).length) 0 := by
  have hunfold : decodeOptHex16 ⟨HEX16_TYPE, v⟩ =
      match hexWriteLoop (List.replicate 16 0) 0 (chunksTwo v) with
      | .ok bs => .ok (some bs)
      | .err e => .err e
      | .panic => .panic := by
    simp [decodeOptHex16, hne]
  have hchlen : (chunksTwo v).length = (v.length + 1) / 2 := chunksTwo_length v
  have hcanon : v.length ≤ 32 →
      (∀ c ∈ chunksTwo v, exIsOk (fromStrRadix 16 256 c) = true) →
      hexWriteLoop (List.replicate 16 0) 0 (chunksTwo v) =
        .ok ((chunksTwo v).map hexByteValD ++
          List.replicate (16 - (chunksTwo v).length) 0) := by
    intro hlen hok
    have h0 := hexLoop_ok (chunksTwo v) [] (List.replicate 16 0)
      (by simp) (by simp; omega) hok
    simp only [List.nil_append, List.length_nil, drop_replicate_eq] at h0
    exact h0
  have hmain : ∀ bs, decodeOptHex16 ⟨HEX16_TYPE, v⟩ = .ok (some bs) →
      v.length ≤ 32 ∧ (∀ c ∈ chunksTwo v, exIsOk (fromStrRadix 16 256 c) = true) ∧
      bs = (chunksTwo v).map hexByteValD ++ List.replicate (16 - (chunksTwo v).length) 0 := by
    intro bs hbs
    rw [hunfold] at hbs
    cases hloop : hexWriteLoop (List.replicate 16 0) 0 (chunksTwo v) with
    | err e => rw [hloop] at hbs; simp at hbs
    | panic => rw [hloop] at hbs; simp at hbs
    | ok bs' =>
      rw [hloop] at hbs
      have hbs' : bs' = bs := by simpa using hbs
      subst hbs'
      have hlen : v.length ≤ 32 := by
        by_contra hgt
        exact hexLoop_no_ok_of_long (chunksTwo v) (List.replicate 16 0) 0
          (by omega) (by omega) bs' hloop
      have hok : ∀ c ∈ chunksTwo v, exIsOk (fromStrRadix 16 256 c) = true := by
        by_contra hbad
        push_neg at hbad
        obtain ⟨c0, hc0, hb⟩ := hbad
        exact hexLoop_no_ok_of_bad (chunksTwo v) (List.replicate 16 0) 0
          ⟨c0, hc0, by simpa using hb⟩ bs' hloop
      refine ⟨hlen, hok, ?_⟩
      have := hcanon hlen hok
      rw [hloop] at this
      simpa using this
  constructor
  · constructor
    · intro h
      exact ⟨(hmain _ h).1, (hmain _ h).2.1⟩
    · intro ⟨hlen, hok⟩
      rw [hunfold, hcanon hlen hok]
  · intro bs hbs
    exact ⟨(hmain bs hbs).1, (hmain bs hbs).2.2⟩

lemma stripPre_eq_none_of_not_seqn {l : Str} (h : isSeqnLine l = false) :
    stripPre seqnMarker l = none := by
  cases ho : stripPre seqnMarker l with
  | none => rfl
  | some r => unfold isSeqnLine at h; rw [ho] at h; simp at h

lemma runLines_append : ∀ (l1 l2 : List Str) (st : PState),
    runLines st (l1 ++ l2) =
      match runLines st l1 with
      | .error e => .error e
      | .ok st' => runLines st' l2 := by
  intro l1
  induction l1 with
  | nil => intro l2 st; rfl
  | cons l ls ih =>
    intro l2 st
    show runLines st (l :: (ls ++ l2)) = _
    rw [runLines, runLines]
    cases hst : stepLine st l with
    | error e => rfl
    | ok st' => exact ih l2 st'

lemma stepLine_inv {st st' : PState} {l : Str} (hinv : StInv st)
    (h : stepLine st l = .ok st') : StInv st' := by
  rw [stepLine] at h
  split at h
  · -- seqn-line branch
    split at h
    · exact absurd h (by simp)
    · split at h
      · exact absurd h (by simp)
      · simp only [Except.ok.injEq] at h
        subst h
        exact hinv
  · -- non-seqn branch
    split at h
    · -- header line
      rename_i hh
      split at h
      · exact absurd h (by simp)
      · simp only [Except.ok.injEq] at h
        subst h
        refine ⟨fun hno => by simp at hno, fun hs' hsome r hr => ?_⟩
        rw [hinv.1 hh] at hr
        simp at hr
    · -- data row
      rename_i hs hh
      dsimp only at h
      split at h
      · exact absurd h (by simp)
      · rename_i hlen
        simp only [Except.ok.injEq] at h
        subst h
        push_neg at hlen
        refine ⟨fun hno => by rw [hh] at hno; simp at hno, fun hs' hsome r hr => ?_⟩
        rw [hh] at hsome
        simp only [Option.some.injEq] at hsome
        subst hsome
        simp only [List.mem_append, List.mem_singleton] at hr
        rcases hr with hr | rfl
        · exact hinv.2 hs hh r hr
        · exact hlen

lemma runLines_inv : ∀ (ls : List Str) {st st' : PState}, StInv st →
    runLines st ls = .ok st' → StInv st' := by
  intro ls
  induction ls with
  | nil => intro st st' hinv h; rw [runLines] at h; simp only [Except.ok.injEq] at h; subst h; exact hinv
  | cons l rest ih =>
    intro st st' hinv h
    rw [runLines] at h
    cases hst : stepLine st l with
    | error e => rw [hst] at h; simp at h
    | ok st1 =>
      rw [hst] at h
      exact ih (stepLine_inv hinv hst) h

/-- C3: every successfully parsed table satisfies the arity invariant (each
row has exactly as many fields as the header has columns), and whenever the
parser reaches a data row (a non-seqn line after the header has been set)
whose pipe-split field count mismatches, the whole parse fails with
`MismatchedRecordLength (got, expected)` — no table is produced. -/
theorem table_arity_invariant :
    (∀ (input : String) (t : BaseResponse), parseResponse input = .ok t →
      ∀ r ∈ t.records, r.length = t.headers.length)
    ∧ ∀ (ls1 : List Str) (line : Str) (ls2 : List Str) (hs : List Header)
        (sq : Option Nat) (recs : List (List Str)),
        runLines initState ls1 = .ok ⟨some hs, sq, recs⟩ →
        isSeqnLine line = false →
        (splitOnChar '|' line).length ≠ hs.length →
        parseResponseLines (ls1 ++ line :: ls2) =
          .error (.MismatchedRecordLength (splitOnChar '|' line).length hs.length) := by
  constructor
  · intro input t hparse r hr
    rw [parseResponse, parseResponseLines] at hparse
    cases hrun : runLines initState (rustLines input.data) with
    | error e => rw [hrun] at hparse; simp at hparse
    | ok st =>
      rw [hrun] at hparse
      dsimp only at hparse
      have hinv : StInv st :=
        runLines_inv _ ⟨fun _ => rfl, fun hs hsome => by simp [initState] at hsome⟩ hrun
      rw [finalize.eq_def] at hparse
      split at hparse
      · simp at hparse
      · rename_i hs hh
        split at hparse
        · simp at hparse
        · rename_i n hsq
          simp only [Except.ok.injEq] at hparse
          subst hparse
          exact hinv.2 hs hh r hr
  · intro ls1 line ls2 hs sq recs hrun hline hlen
    have hstep : stepLine ⟨some hs, sq, recs⟩ line =
        .error (.MismatchedRecordLength (splitOnChar '|' line).length hs.length) := by
      rw [stepLine, stripPre_eq_none_of_not_seqn hline]
      dsimp only
      rw [if_pos hlen]
    have hrl : runLines (⟨some hs, sq, recs⟩ : PState) (line :: ls2) =
        .error (.MismatchedRecordLength (splitOnChar '|' line).length hs.length) := by
      show (match stepLine (⟨some hs, sq, recs⟩ : PState) line with
        | .error e => (.error e : Except Error PState)
        | .ok st' => runLines st' ls2) = _
      rw [hstep]
    rw [parseResponseLines, runLines_append, hrun]
    dsimp only
    rw [hrl]

lemma parseTypeName_error {s : Str} {e : Error} (h : parseTypeName s = .error e) :
    isLineFailure e = true := by
  rw [parseTypeName] at h
  split at h
  · simp at h
  · split at h
    · simp at h
    · split at h
      · simp at h
      · simp only [Except.error.injEq] at h
        subst h
        rfl

lemma parseTy_error {s : Str} {e : Error} (h : parseTy s = .error e) :
    isLineFailure e = true := by
  rw [parseTy] at h
  split at h
  · simp only [Except.error.injEq] at h
    subst h
    rfl
  · split at h
    · simp only [Except.error.injEq] at h
      subst h
      rfl
    · split at h
      · rename_i htn
        simp only [Except.error.injEq] at h
        subst h
        exact parseTypeName_error htn
      · simp at h

lemma parseHeader_error {s : Str} {e : Error} (h : parseHeader s = .error e) :
    isLineFailure e = true := by
  rw [parseHeader] at h
  split at h
  · split at h
    · rename_i hty
      simp only [Except.error.injEq] at h
      subst h
      exact parseTy_error hty
    · simp at h
  · simp only [Except.error.injEq] at h
    subst h
    rfl

lemma exceptMapM_error_mem {ε α β : Type} {f : α → Except ε β} :
    ∀ {l : List α} {e : ε}, exceptMapM f l = .error e → ∃ a ∈ l, f a = .error e := by
  intro l
  induction l with
  | nil => intro e h; rw [exceptMapM] at h; simp at h
  | cons a as ih =>
    intro e h
    rw [exceptMapM] at h
    cases hfa : f a with
    | error e' =>
      rw [hfa] at h
      simp only [Except.error.injEq] at h
      subst h
      exact ⟨a, List.mem_cons_self a as, hfa⟩
    | ok b =>
      rw [hfa] at h
      cases hrest : exceptMapM f as with
      | error e' =>
        rw [hrest] at h
        simp only [Except.error.injEq] at h
        subst h
        obtain ⟨a', ha', hfa'⟩ := ih hrest
        exact ⟨a', List.mem_cons_of_mem a ha', hfa'⟩
      | ok bs => rw [hrest] at h; simp at h

lemma parseHeaderLine_error {l : Str} {e : Error} (h : parseHeaderLine l = .error e) :
    isLineFailure e = true := by
  obtain ⟨a, _, hfa⟩ := exceptMapM_error_mem h
  exact parseHeader_error hfa

lemma stepLine_error_nonseqn {st : PState} {l : Str} {e : Error}
    (hl : isSeqnLine l = false) (h : stepLine st l = .error e) :
    isLineFailure e = true := by
  have hsp := stripPre_eq_none_of_not_seqn hl
  simp only [stepLine, hsp] at h
  split at h
  · split at h
    · rename_i hpl
      simp only [Except.error.injEq] at h
      subst h
      exact parseHeaderLine_error hpl
    · simp at h
  · split at h
    · simp only [Except.error.injEq] at h
      subst h
      rfl
    · simp at h

lemma stepLine_ok_nonseqn {st st' : PState} {l : Str}
    (hl : isSeqnLine l = false) (h : stepLine st l = .ok st') :
    st'.seqn = st.seqn ∧ st'.headers.isSome = true := by
  have hsp := stripPre_eq_none_of_not_seqn hl
  simp only [stepLine, hsp] at h
  split at h
  · split at h
    · simp at h
    · simp only [Except.ok.injEq] at h
      subst h
      exact ⟨rfl, rfl⟩
  · rename_i hh
    split at h
    · simp at h
    · simp only [Except.ok.injEq] at h
      subst h
      exact ⟨rfl, by simp [hh]⟩

lemma runLines_noseqn : ∀ (ls : List Str) (st : PState),
    (∀ l ∈ ls, isSeqnLine l = false) →
    (∀ e, runLines st ls = .error e → isLineFailure e = true) ∧
    (∀ st', runLines st ls = .ok st' → st'.seqn = st.seqn ∧ (ls = [] → st' = st) ∧
      (ls ≠ [] → st'.headers.isSome = true)) := by
  intro ls
  induction ls with
  | nil =>
    intro st _
    refine ⟨fun e h => by rw [runLines] at h; simp at h, fun st' h => ?_⟩
    rw [runLines] at h
    simp only [Except.ok.injEq] at h
    subst h
    exact ⟨rfl, fun _ => rfl, fun hne => absurd rfl hne⟩
  | cons l rest ih =>
    intro st hall
    have hl : isSeqnLine l = false := hall l (List.mem_cons_self l rest)
    have hrest : ∀ l' ∈ rest, isSeqnLine l' = false :=
      fun l' hm => hall l' (List.mem_cons_of_mem l hm)
    constructor
    · intro e h
      rw [runLines] at h
      cases hst : stepLine st l with
      | error e' =>
        rw [hst] at h
        simp only [Except.error.injEq] at h
        subst h
        exact stepLine_error_nonseqn hl hst
      | ok st1 =>
        rw [hst] at h
        exact (ih st1 hrest).1 e h
    · intro st' h
      rw [runLines] at h
      cases hst : stepLine st l with
      | error e' => rw [hst] at h; simp at h
      | ok st1 =>
        rw [hst] at h
        have hok := stepLine_ok_nonseqn hl hst
        have hih := (ih st1 hrest).2 st' h
        refine ⟨hih.1.trans hok.1, fun hc => by simp at hc, fun _ => ?_⟩
        cases rest with
        | nil =>
          rw [hih.2.1 rfl]
          exact hok.2
        | cons r rs => exact hih.2.2 (by simp)

lemma runLines_multiseqn : ∀ (ls : List Str) (st : PState),
    ((st.seqn.isSome = true ∧ 1 ≤ countSeqn ls) ∨ 2 ≤ countSeqn ls) →
    runLines st ls = .error .MultipleSeqn ∨
      ∃ e, runLines st ls = .error e ∧ isLineFailure e = true := by
  intro ls
  induction ls with
  | nil =>
    intro st hyp
    rcases hyp with ⟨_, h1⟩ | h2
    · simp [countSeqn] at h1
    · simp [countSeqn] at h2
  | cons l rest ih =>
    intro st hyp
    have hcount : countSeqn (l :: rest) =
        countSeqn rest + (if isSeqnLine l = true then 1 else 0) := by
      simp [countSeqn, List.countP_cons]
    by_cases hl : isSeqnLine l = true
    · obtain ⟨r, hr⟩ := Option.isSome_iff_exists.mp hl
      cases hsq : st.seqn with
      | some n =>
        left
        have hstep : stepLine st l = .error .MultipleSeqn := by
          simp only [stepLine, hr, hsq]
        rw [runLines, hstep]
      | none =>
        cases hp : parseU32 r with
        | error e =>
          right
          refine ⟨.UnparseableInt e, ?_, rfl⟩
          have hstep : stepLine st l = .error (.UnparseableInt e) := by
            simp only [stepLine, hr, hsq, hp]
          rw [runLines, hstep]
        | ok n =>
          have hstep : stepLine st l = .ok { st with seqn := some n } := by
            simp only [stepLine, hr, hsq, hp]
          have hrl : runLines st (l :: rest) = runLines { st with seqn := some n } rest := by
            rw [runLines, hstep]
          rw [hrl]
          apply ih
          left
          refine ⟨rfl, ?_⟩
          rcases hyp with ⟨hsome, _⟩ | h2
          · rw [hsq] at hsome; simp at hsome
          · rw [hcount] at h2
            simp only [if_pos hl] at h2
            omega
    · have hl' : isSeqnLine l = false := by simpa using hl
      cases hst : stepLine st l with
      | error e =>
        right
        refine ⟨e, ?_, stepLine_error_nonseqn hl' hst⟩
        rw [runLines, hst]
      | ok st1 =>
        have hrl : runLines st (l :: rest) = runLines st1 rest := by
          rw [runLines, hst]
        rw [hrl]
        apply ih
        have hok := stepLine_ok_nonseqn hl' hst
        rw [hcount] at hyp
        simp only [if_neg hl] at hyp
        rcases hyp with ⟨hsome, h1⟩ | h2
        · left
          rw [hok.1]
          exact ⟨hsome, by omega⟩
        · right
          omega

lemma parseResponseLines_error_of {ls : List Str} {e : Error}
    (h : runLines initState ls = .error e) : parseResponseLines ls = .error e := by
  rw [parseResponseLines, h]

/-- C4 (amended): an input with at least one line and no seqn line fails —
with `ExpectedSeqnLine` unless some line itself fails to parse (malformed
header token, type token, number, or row arity), in which case that line's
error is reported instead; an input with two or more seqn lines fails — with
`MultipleSeqn` unless a line failing to parse occurs before the second seqn
line. -/
theorem seqn_uniqueness_amended :
    (∀ ls : List Str, ls ≠ [] → countSeqn ls = 0 →
      parseResponseLines ls = .error .ExpectedSeqnLine ∨
        ∃ e, parseResponseLines ls = .error e ∧ isLineFailure e = true)
    ∧ ∀ ls : List Str, 2 ≤ countSeqn ls →
      parseResponseLines ls = .error .MultipleSeqn ∨
        ∃ e, parseResponseLines ls = .error e ∧ isLineFailure e = true := by
  constructor
  · intro ls hne hcount
    have hall : ∀ l ∈ ls, isSeqnLine l = false := by
      intro l hm
      have := (List.countP_eq_zero.mp hcount) l hm
      simpa using this
    cases hrun : runLines initState ls with
    | error e =>
      right
      exact ⟨e, parseResponseLines_error_of hrun, (runLines_noseqn ls initState hall).1 e hrun⟩
    | ok st =>
      left
      have hok := (runLines_noseqn ls initState hall).2 st hrun
      have hseqn : st.seqn = none := hok.1
      obtain ⟨hs, hh⟩ := Option.isSome_iff_exists.mp (hok.2.2 hne)
      rw [parseResponseLines, hrun]
      dsimp only
      rw [finalize.eq_def, hh, hseqn]
  · intro ls hcount
    have h := runLines_multiseqn ls initState (Or.inr hcount)
    rcases h with h | ⟨e, he, hfail⟩
    · exact Or.inl (parseResponseLines_error_of h)
    · exact Or.inr ⟨e, parseResponseLines_error_of he, hfail⟩

lemma stepLine_seqn_param {h : Option (List Header)} {r : List (List Str)}
    {sq : Option Nat} {l : Str} (hl : isSeqnLine l = false) :
    stepLine ⟨h, sq, r⟩ l =
      (stepLine ⟨h, none, r⟩ l).map (fun st => { st with seqn := sq }) := by
  have hsp := stripPre_eq_none_of_not_seqn hl
  cases h with
  | none =>
    cases hpl : parseHeaderLine l with
    | error e => simp only [stepLine, hsp, hpl, Except.map]
    | ok hs => simp only [stepLine, hsp, hpl, Except.map]
  | some hs =>
    by_cases hlen : (splitOnChar '|' l).length ≠ hs.length
    · simp only [stepLine, hsp, if_pos hlen, Except.map]
    · simp only [stepLine, hsp, if_neg hlen, Except.map]

lemma runLines_seqn_param : ∀ (ls : List Str) (h : Option (List Header))
    (r : List (List Str)) (sq : Option Nat), (∀ l ∈ ls, isSeqnLine l = false) →
    runLines ⟨h, sq, r⟩ ls =
      (runLines ⟨h, none, r⟩ ls).map (fun st => { st with seqn := sq }) := by
  intro ls
  induction ls with
  | nil => intro h r sq _; simp [runLines, Except.map]
  | cons l rest ih =>
    intro h r sq hall
    have hl : isSeqnLine l = false := hall l (List.mem_cons_self l rest)
    have hrest : ∀ l' ∈ rest, isSeqnLine l' = false :=
      fun l' hm => hall l' (List.mem_cons_of_mem l hm)
    rw [runLines, runLines]
    have hstep := @stepLine_seqn_param h r sq l hl
    cases hst : stepLine (⟨h, none, r⟩ : PState) l with
    | error e =>
      rw [hst] at hstep
      simp only [Except.map] at hstep
      rw [hstep]
      simp [Except.map]
    | ok st1 =>
      rw [hst] at hstep
      simp only [Except.map] at hstep
      rw [hstep]
      simp only
      have hseqn1 : st1.seqn = none := (stepLine_ok_nonseqn hl hst).1
      obtain ⟨h1, s1, r1⟩ := st1
      obtain rfl : s1 = none := hseqn1
      exact ih h1 r1 sq hrest

/-- C9: line classification is content-based, so a lone seqn line may precede
or follow the header line (and any run of data rows): for seqn-free `pre` and
`post`, the input `pre ++ [s] ++ post` parses to a table exactly when
`s :: pre ++ post` does, and to the same table. -/
theorem seqn_position_independent (s : Str) (pre post : List Str)
    (hseq : isSeqnLine s = true)
    (hpre : ∀ l ∈ pre, isSeqnLine l = false)
    (_hpost : ∀ l ∈ post, isSeqnLine l = false) (t : BaseResponse) :
    parseResponseLines (pre ++ s :: post) = .ok t ↔
      parseResponseLines (s :: (pre ++ post)) = .ok t := by
  obtain ⟨r, hr⟩ := Option.isSome_iff_exists.mp hseq
  cases hp : parseU32 r with
  | error e =>
    have hRerr : parseResponseLines (s :: (pre ++ post)) = .error (.UnparseableInt e) := by
      have hstep0 : stepLine initState s = .error (.UnparseableInt e) := by
        simp only [stepLine, initState, hr, hp]
      rw [parseResponseLines, runLines, hstep0]
    have hLnok : ∀ t', parseResponseLines (pre ++ s :: post) ≠ .ok t' := by
      intro t' hL
      rw [parseResponseLines, runLines_append] at hL
      cases hrun : runLines initState pre with
      | error e' => rw [hrun] at hL; simp at hL
      | ok st1 =>
        rw [hrun] at hL
        dsimp only at hL
        have hseqn1 : st1.seqn = none := ((runLines_noseqn pre initState hpre).2 st1 hrun).1
        obtain ⟨h1, s1, r1⟩ := st1
        obtain rfl : s1 = none := hseqn1
        have hstep1 : stepLine (⟨h1, none, r1⟩ : PState) s = .error (.UnparseableInt e) := by
          simp only [stepLine, hr, hp]
        rw [runLines, hstep1] at hL
        simp at hL
    rw [hRerr]
    constructor
    · intro h; exact absurd h (hLnok t)
    · intro h; simp at h
  | ok n =>
    have hstep0 : stepLine initState s = .ok ⟨none, some n, []⟩ := by
      simp only [stepLine, initState, hr, hp]
    have main : runLines initState (pre ++ s :: post) =
        runLines initState (s :: (pre ++ post)) := by
      have hRHS : runLines initState (s :: (pre ++ post)) =
          runLines (⟨none, some n, []⟩ : PState) (pre ++ post) := by
        rw [runLines, hstep0]
      rw [hRHS, runLines_append, runLines_append]
      have hparam : runLines (⟨none, some n, []⟩ : PState) pre =
          (runLines initState pre).map (fun st => { st with seqn := some n }) :=
        runLines_seqn_param pre none [] (some n) hpre
      rw [hparam]
      cases hrun : runLines initState pre with
      | error e' => simp [Except.map]
      | ok st1 =>
        simp only [Except.map]
        have hseqn1 : st1.seqn = none := ((runLines_noseqn pre initState hpre).2 st1 hrun).1
        obtain ⟨h1, s1, r1⟩ := st1
        obtain rfl : s1 = none := hseqn1
        have hstep1 : stepLine (⟨h1, none, r1⟩ : PState) s = .ok ⟨h1, some n, r1⟩ := by
          simp only [stepLine, hr, hp]
        rw [runLines, hstep1]
    rw [parseResponseLines, parseResponseLines, main]

lemma fromStrRadixCore_lt {radix bound : Nat} : ∀ {v : Str} {acc n : Nat},
    fromStrRadixCore radix bound v acc = .ok n → acc < bound → n < bound := by
  intro v
  induction v with
  | nil =>
    intro acc n h hb
    rw [fromStrRadixCore] at h
    simp only [Except.ok.injEq] at h
    subst h
    exact hb
  | cons c rest ih =>
    intro acc n h hb
    cases hd : toDigitRadix radix c with
    | none => simp [fromStrRadixCore, hd] at h
    | some d =>
      simp only [fromStrRadixCore, hd] at h
      by_cases hlt : acc * radix + d < bound
      · rw [if_pos hlt] at h; exact ih h hlt
      · rw [if_neg hlt] at h; simp at h

lemma parseU32_lt {v : Str} {n : Nat} (h : parseU32 v = .ok n) : n < 2 ^ 32 := by
  cases v with
  | nil => simp [parseU32, fromStrRadix] at h
  | cons c rest =>
    simp only [parseU32, fromStrRadix] at h
    by_cases hc : c = '+'
    · rw [if_pos hc] at h
      by_cases hrest : rest = []
      · rw [if_pos hrest] at h; simp at h
      · rw [if_neg hrest] at h
        exact fromStrRadixCore_lt h (by norm_num)
    · rw [if_neg hc] at h
      exact fromStrRadixCore_lt h (by norm_num)

lemma decFold_ge : ∀ (v : Str) (acc : Nat),
    acc ≤ v.foldl (fun a c => a * 10 + (c.toNat - 48)) acc := by
  intro v
  induction v with
  | nil => intro acc; simp
  | cons c rest ih =>
    intro acc
    rw [List.foldl_cons]
    calc acc ≤ acc * 10 + (c.toNat - 48) := by omega
    _ ≤ _ := ih _

lemma fromStrRadixCore_digits {bound : Nat} : ∀ (v : Str) (acc : Nat),
    (∀ c ∈ v, isDecDigit c = true) →
    v.foldl (fun a c => a * 10 + (c.toNat - 48)) acc < bound →
    fromStrRadixCore 10 bound v acc =
      .ok (v.foldl (fun a c => a * 10 + (c.toNat - 48)) acc) := by
  intro v
  induction v with
  | nil => intro acc _ _; rw [fromStrRadixCore]; simp
  | cons c rest ih =>
    intro acc hall hlt
    have hc : isDecDigit c = true := hall c (List.mem_cons_self _ _)
    simp only [isDecDigit, Bool.and_eq_true, decide_eq_true_eq] at hc
    have hd : toDigitRadix 10 c = some (c.toNat - 48) := by
      have h1 : hexDigitVal? c = some (c.toNat - 48) := by
        simp only [hexDigitVal?]
        rw [if_pos ⟨hc.1, hc.2⟩]
      simp only [toDigitRadix, h1]
      rw [if_pos (by omega)]
    simp only [fromStrRadixCore, hd]
    rw [List.foldl_cons] at hlt ⊢
    have hge := decFold_ge rest (acc * 10 + (c.toNat - 48))
    rw [if_pos (by omega)]
    exact ih _ (fun c' hm => hall c' (List.mem_cons_of_mem _ hm)) hlt

lemma parseU32_digits {v : Str} (hne : v ≠ []) (hall : ∀ c ∈ v, isDecDigit c = true)
    (hlt : decDigitsVal v < 2 ^ 32) : parseU32 v = .ok (decDigitsVal v) := by
  cases v with
  | nil => exact absurd rfl hne
  | cons c rest =>
    have hc : isDecDigit c = true := hall c (List.mem_cons_self _ _)
    have hcp : ¬ c = '+' := by
      intro hcc
      rw [hcc] at hc
      exact absurd hc (by decide)
    simp only [parseU32, fromStrRadix, if_neg hcp]
    exact fromStrRadixCore_digits (c :: rest) 0 hall hlt

/-- C6: each field decoder requires its exact declared type and fails with
`UnexpectedType` otherwise; on `Dec:4` the `Dec4` decoder parses the raw
value as a base-10 unsigned 32-bit integer (all-digit values below `2^32`
succeed with their numeric value, parse failures surface as an integer-parse
error, and successes are always below `2^32`); the hex decoders require
exactly `Hex:16`, so a `BuildConfig` column declared `HEX:8` fails with
`UnexpectedType` under the Versions schema. -/
theorem decoder_type_gating :
    (∀ (t : Ty) (v : Str), t ≠ DEC4_TYPE → decodeDec4 ⟨t, v⟩ =
      .error (.UnexpectedType (tyToString t) (tyToString DEC4_TYPE)))
    ∧ (∀ (v : Str) (n : Nat), parseU32 v = .ok n → decodeDec4 ⟨DEC4_TYPE, v⟩ = .ok n)
    ∧ (∀ (v : Str) (e : ParseIntError), parseU32 v = .error e →
      decodeDec4 ⟨DEC4_TYPE, v⟩ = .error (.UnparseableInt e))
    ∧ (∀ (v : Str) (n : Nat), parseU32 v = .ok n → n < 2 ^ 32)
    ∧ (∀ v : Str, v ≠ [] → (∀ c ∈ v, isDecDigit c = true) → decDigitsVal v < 2 ^ 32 →
      decodeDec4 ⟨DEC4_TYPE, v⟩ = .ok (decDigitsVal v))
    ∧ (∀ (t : Ty) (v : Str), t ≠ HEX16_TYPE →
      decodeOptHex16 ⟨t, v⟩ = .err (.UnexpectedType (tyToString t) (tyToString HEX16_TYPE)) ∧
      decodeHex16 ⟨t, v⟩ = .err (.UnexpectedType (tyToString t) (tyToString HEX16_TYPE)))
    ∧ (∀ (t : Ty) (v : Str), t ≠ STRING_TYPE → decodeString0 ⟨t, v⟩ =
      .error (.UnexpectedType (tyToString t) (tyToString DEC4_TYPE)))
    ∧ decodeVersionsRecord [⟨"Region".data, STRING_TYPE⟩, ⟨"BuildConfig".data, ⟨.hex, 8⟩⟩]
        ["us".data, "aabb".data] = .err (.UnexpectedType "HEX:8".data "HEX:16".data) := by
  refine ⟨?_, ?_, ?_, fun v n h => parseU32_lt h, ?_, ?_, ?_, by decide⟩
  · intro t v ht
    simp only [decodeDec4]
    rw [if_pos ht]
  · intro v n h
    simp [decodeDec4, h]
  · intro v e h
    simp [decodeDec4, h]
  · intro v hne hall hlt
    simp [decodeDec4, parseU32_digits hne hall hlt]
  · intro t v ht
    have hopt : decodeOptHex16 ⟨t, v⟩ =
        .err (.UnexpectedType (tyToString t) (tyToString HEX16_TYPE)) := by
      simp only [decodeOptHex16]
      rw [if_pos ht]
    exact ⟨hopt, by rw [decodeHex16, hopt]⟩
  · intro t v ht
    simp only [decodeString0]
    rw [if_pos ht]

lemma exceptMapM_ok_length {ε α β : Type} {f : α → Except ε β} : ∀ {l : List α}
    {bs : List β}, exceptMapM f l = .ok bs → bs.length = l.length := by
  intro l
  induction l with
  | nil =>
    intro bs h
    rw [exceptMapM] at h
    simp only [Except.ok.injEq] at h
    subst h
    rfl
  | cons a as ih =>
    intro bs h
    simp only [exceptMapM] at h
    cases hfa : f a with
    | error e => rw [hfa] at h; simp at h
    | ok b =>
      rw [hfa] at h
      cases hrest : exceptMapM f as with
      | error e => rw [hrest] at h; simp at h
      | ok bs' =>
        rw [hrest] at h
        simp only [Except.ok.injEq] at h
        subst h
        simp [ih hrest]

lemma exceptMapM_ok_get {ε α β : Type} {f : α → Except ε β} : ∀ {l : List α}
    {bs : List β}, exceptMapM f l = .ok bs →
    ∀ (i : Nat) (hl : i < l.length) (hb : i < bs.length),
      f (l.get ⟨i, hl⟩) = .ok (bs.get ⟨i, hb⟩) := by
  intro l
  induction l with
  | nil => intro bs h i hl hb; simp at hl
  | cons a as ih =>
    intro bs h i hl hb
    simp only [exceptMapM] at h
    cases hfa : f a with
    | error e => rw [hfa] at h; simp at h
    | ok b =>
      rw [hfa] at h
      cases hrest : exceptMapM f as with
      | error e => rw [hrest] at h; simp at h
      | ok bs' =>
        rw [hrest] at h
        simp only [Except.ok.injEq] at h
        subst h
        cases i with
        | zero => exact hfa
        | succ i' => exact ih hrest i' (by simpa using hl) (by simpa using hb)

lemma exceptMapM_error_first {ε α β : Type} {f : α → Except ε β} : ∀ {l : List α}
    (i : Nat) (hi : i < l.length) {e : ε},
    (∀ (j : Nat) (hj : j < l.length), j < i → exIsOk (f (l.get ⟨j, hj⟩)) = true) →
    f (l.get ⟨i, hi⟩) = .error e → exceptMapM f l = .error e := by
  intro l
  induction l with
  | nil => intro i hi e _ _; simp at hi
  | cons a as ih =>
    intro i hi e hprev herr
    cases i with
    | zero =>
      simp only [exceptMapM]
      rw [show f a = .error e from herr]
    | succ i' =>
      have h0 : exIsOk (f a) = true := hprev 0 (by simp) (by omega)
      cases hfa : f a with
      | error e0 => rw [hfa] at h0; simp [exIsOk] at h0
      | ok b =>
        simp only [exceptMapM, hfa]
        have hih := ih i' (by simpa using hi)
          (fun j hj hlt => hprev (j + 1) (by simpa using hj) (by omega)) herr
        rw [hih]

/-- C7: whenever the generic table parse and the summary projection both
succeed, the decoded response's seqn is the table's, there are exactly as many
records as data rows, and the i-th record is the decode of the i-th row (in
the original order: products and flags pass through as strings, `Seqn` fields
parse as integers). -/
theorem summary_roundtrip (input : String) (b : BaseResponse) (s : SummaryResponse)
    (_hparse : parseResponse input = .ok b) (hproj : summaryOfBase b = .ok s) :
    s.seqn = b.seqn ∧ s.records.length = b.records.length ∧
    ∀ (i : Nat) (hb : i < b.records.length) (hr : i < s.records.length),
      decodeSummaryRecord b.headers (b.records.get ⟨i, hb⟩) =
        .ok (s.records.get ⟨i, hr⟩) := by
  rw [summaryOfBase] at hproj
  cases hm : exceptMapM (fun row => decodeSummaryRecord b.headers row) b.records with
  | error e => rw [hm] at hproj; simp at hproj
  | ok recs =>
    rw [hm] at hproj
    simp only [Except.ok.injEq] at hproj
    subst hproj
    exact ⟨rfl, exceptMapM_ok_length hm,
      fun i hb hr => exceptMapM_ok_get hm i hb hr⟩

lemma getFieldAux_none_iff (values : List Str) (name : Str) : ∀ (hs : List Header)
    (idx : Nat), getFieldAux values name hs idx = none ↔ ∀ h ∈ hs, h.name ≠ name := by
  intro hs
  induction hs with
  | nil => intro idx; simp [getFieldAux]
  | cons h0 rest ih =>
    intro idx
    by_cases hn : h0.name = name
    · constructor
      · intro hcon
        rw [getFieldAux, if_pos hn] at hcon
        simp at hcon
      · intro hall
        exact absurd hn (hall h0 (List.mem_cons_self _ _))
    · rw [getFieldAux, if_neg hn, ih (idx + 1)]
      simp [List.forall_mem_cons, hn]

lemma getFieldAux_first (values : List Str) (name : Str) : ∀ (hs : List Header)
    (idx i : Nat) (hi : i < hs.length), (hs.get ⟨i, hi⟩).name = name →
    (∀ (j : Nat) (hj : j < hs.length), j < i → (hs.get ⟨j, hj⟩).name ≠ name) →
    getFieldAux values name hs idx =
      some ⟨(hs.get ⟨i, hi⟩).type_, values.getD (idx + i) []⟩ := by
  intro hs
  induction hs with
  | nil => intro idx i hi; simp at hi
  | cons h0 rest ih =>
    intro idx i hi hname hfirst
    cases i with
    | zero =>
      rw [getFieldAux, if_pos (show h0.name = name from hname)]
      rfl
    | succ i' =>
      have h0n : h0.name ≠ name := hfirst 0 (by simp) (by omega)
      rw [getFieldAux, if_neg h0n]
      have hrec := ih (idx + 1) i' (by simpa using hi) hname
        (fun j hj hlt => hfirst (j + 1) (by simpa using hj) (by omega))
      rw [hrec, show idx + 1 + i' = idx + (i' + 1) by omega]
      rfl

lemma getFieldByHeaderName_none_iff (headers : List Header) (values : List Str)
    (name : Str) : getFieldByHeaderName headers values name = none ↔
      ∀ h ∈ headers, h.name ≠ name :=
  getFieldAux_none_iff values name headers 0

lemma getFieldByHeaderName_isSome_iff (headers : List Header) (values : List Str)
    (name : Str) : (getFieldByHeaderName headers values name).isSome = true ↔
      ∃ h ∈ headers, h.name = name := by
  constructor
  · intro hsome
    by_contra hno
    push_neg at hno
    rw [(getFieldByHeaderName_none_iff headers values name).mpr hno] at hsome
    simp at hsome
  · rintro ⟨h0, hm, hn⟩
    cases ho : getFieldByHeaderName headers values name with
    | some f => simp
    | none => exact absurd hn ((getFieldByHeaderName_none_iff headers values name).mp ho h0 hm)

/-- C8: projection looks a required field up as the first header whose name
matches exactly; a missing name fails the record with `ExpectedField(name)`;
the first field-decode failure short-circuits the record; and the first
failing row fails the whole summary decode with that row's error (no partial
record list). -/
theorem summary_projection_failfast :
    (∀ (headers : List Header) (values : List Str) (name : Str),
      getFieldByHeaderName headers values name = none ↔ ∀ h ∈ headers, h.name ≠ name)
    ∧ (∀ (headers : List Header) (values : List Str) (name : Str) (i : Nat)
        (hi : i < headers.length), (headers.get ⟨i, hi⟩).name = name →
        (∀ (j : Nat) (hj : j < headers.length), j < i →
          (headers.get ⟨j, hj⟩).name ≠ name) →
        getFieldByHeaderName headers values name =
          some ⟨(headers.get ⟨i, hi⟩).type_, values.getD i []⟩)
    ∧ (∀ (headers : List Header) (values : List Str),
        getFieldByHeaderName headers values "Product".data = none →
        decodeSummaryRecord headers values = .error (.ExpectedField "Product".data))
    ∧ (∀ (headers : List Header) (values : List Str) (f : Field) (e : Error),
        getFieldByHeaderName headers values "Product".data = some f →
        decodeString0 f = .error e → decodeSummaryRecord headers values = .error e)
    ∧ ∀ (b : BaseResponse) (i : Nat) (hi : i < b.records.length) (e : Error),
        (∀ (j : Nat) (hj : j < b.records.length), j < i →
          exIsOk (decodeSummaryRecord b.headers (b.records.get ⟨j, hj⟩)) = true) →
        decodeSummaryRecord b.headers (b.records.get ⟨i, hi⟩) = .error e →
        summaryOfBase b = .error e := by
  refine ⟨getFieldByHeaderName_none_iff, ?_, ?_, ?_, ?_⟩
  · intro headers values name i hi hname hfirst
    have := getFieldAux_first values name headers 0 i hi hname hfirst
    rwa [Nat.zero_add] at this
  · intro headers values hnone
    simp only [decodeSummaryRecord, hnone]
  · intro headers values f e hsome herr
    simp only [decodeSummaryRecord, hsome, herr]
  · intro b i hi e hprev herr
    rw [summaryOfBase, exceptMapM_error_first i hi hprev herr]

/-- C10: type-name parsing uppercases its token and accepts exactly the three
names String/Hex/Dec (so `string`, `STRING`, `String` all parse to the same
constructor, and any token whose uppercasing is none of the three fails with
`UnknownTypeName`), while field-name lookup matches header names exactly and
case-sensitively. -/
theorem typename_case_rules :
    (parseTypeName "string".data = .ok .string ∧
      parseTypeName "STRING".data = .ok .string ∧
      parseTypeName "String".data = .ok .string)
    ∧ (∀ s : Str, rustToUppercase s ≠ "STRING".data → rustToUppercase s ≠ "HEX".data →
      rustToUppercase s ≠ "DEC".data → parseTypeName s = .error (.UnknownTypeName s))
    ∧ (∀ (headers : List Header) (values : List Str) (name : Str),
      (getFieldByHeaderName headers values name).isSome = true ↔
        ∃ h ∈ headers, h.name = name)
    ∧ getFieldByHeaderName [⟨"Product".data, STRING_TYPE⟩] ["x".data] "product".data = none
    ∧ (getFieldByHeaderName [⟨"Product".data, STRING_TYPE⟩] ["x".data]
        "Product".data).isSome = true := by
  refine ⟨by decide, ?_, getFieldByHeaderName_isSome_iff, by decide, by decide⟩
  intro s h1 h2 h3
  simp only [parseTypeName, if_neg h1, if_neg h2, if_neg h3]

/-- C2: the optional `Hex16` decoder is claimed never to write out of bounds
for any value length.  In fact a 33-character value of `'0'`s makes every one
of its 17 chunks parse, and the 17th write targets index 16 of the 16-byte
buffer: an out-of-bounds write, i.e. a panic. -/
theorem hex16_decode_panics_beyond_32_chars :
    decodeOptHex16 ⟨HEX16_TYPE, List.replicate 33 '0'⟩ = .panic := by
  decide

/-- C5: an empty raw value of a `Hex:16` field decodes to `none` through the
optional decoder, while the required decoder fails with `EmptyField` carrying
the type's display string `HEX:16`. -/
theorem hex16_empty_field_behavior :
    decodeOptHex16 ⟨HEX16_TYPE, []⟩ = .ok none ∧
    decodeHex16 ⟨HEX16_TYPE, []⟩ = .err (.EmptyField (tyToString HEX16_TYPE)) ∧
    tyToString HEX16_TYPE = "HEX:16".data := by
  decide

/-- C1 counterexample: the optional `Hex16` decoder succeeds on the two-hex-
character value `"ff"`, so "succeeds only if the value consists of exactly 32
hexadecimal characters" is false: the decoder never checks the length, it
zero-pads the undershoot. -/
theorem hex16_succeeds_without_32_chars :
    decodeOptHex16 ⟨HEX16_TYPE, "ff".data⟩ = .ok (some (255 :: List.replicate 15 0)) ∧
    ("ff".data).length ≠ 32 := by
  decide

/-- C4 counterexample: an input with two seqn lines does not always fail with
`MultipleSeqn`: a malformed header line between them fails first with
`ExpectedBang`. -/
theorem multiple_seqn_preempted_by_line_error :
    countSeqn (rustLines ("## seqn = 1\nA\n## seqn = 2".data)) = 2 ∧
    parseResponse "## seqn = 1\nA\n## seqn = 2" = .error (.ExpectedBang ['A']) ∧
    parseResponse "## seqn = 1\nA\n## seqn = 2" ≠ .error .MultipleSeqn := by
  decide

/-- Witness for the C1 amended theorem at the concrete value `"ab"`. -/
theorem hex16_opt_decode_characterization_witness :
    decodeOptHex16 ⟨HEX16_TYPE, "ab".data⟩ =
      .ok (some ((chunksTwo "ab".data).map hexByteValD ++
        List.replicate (16 - (chunksTwo "ab".data).length) 0)) :=
  (hex16_opt_decode_characterization "ab".data (by decide)).1.mpr (by decide)

/-- Witness for the C3 theorem: a one-column header followed by a two-field
row fails with `MismatchedRecordLength 2 1`. -/
theorem table_arity_invariant_witness :
    parseResponseLines ["A!STRING:0".data, "x|y".data] =
      .error (.MismatchedRecordLength 2 1) :=
  table_arity_invariant.2 ["A!STRING:0".data] "x|y".data []
    [⟨"A".data, STRING_TYPE⟩] none [] (by decide) (by decide) (by decide)

/-- Witness for the C4 amended theorem: a single header line with no seqn
line. -/
theorem seqn_uniqueness_witness :
    parseResponseLines ["A!STRING:0".data] = .error .ExpectedSeqnLine ∨
      ∃ e, parseResponseLines ["A!STRING:0".data] = .error e ∧ isLineFailure e = true :=
  seqn_uniqueness_amended.1 ["A!STRING:0".data] (by decide) (by decide)

/-- Witness for the C6 theorem: a `Hex:8` column refused by the `Dec4`
decoder. -/
theorem decoder_type_gating_witness :
    decodeDec4 ⟨⟨TypeName.hex, 8⟩, "5".data⟩ =
      .error (.UnexpectedType (tyToString ⟨TypeName.hex, 8⟩) (tyToString DEC4_TYPE)) :=
  decoder_type_gating.1 ⟨TypeName.hex, 8⟩ "5".data (by decide)

/-- Witness for the C7 theorem on a concrete one-row summary input. -/
theorem summary_roundtrip_witness :
    decodeSummaryRecord
        [⟨"Product".data, ⟨TypeName.string, 0⟩⟩, ⟨"Seqn".data, ⟨TypeName.dec, 4⟩⟩,
          ⟨"Flags".data, ⟨TypeName.string, 0⟩⟩]
        (List.get [["ag".data, "12".data, "cdn".data]] ⟨0, by decide⟩) =
      .ok (List.get [(⟨"ag".data, 12, "cdn".data⟩ : SummaryRecord)] ⟨0, by decide⟩) :=
  (summary_roundtrip "Product!STRING:0|Seqn!DEC:4|Flags!STRING:0\n## seqn = 7\nag|12|cdn"
      ⟨7, [⟨"Product".data, ⟨TypeName.string, 0⟩⟩, ⟨"Seqn".data, ⟨TypeName.dec, 4⟩⟩,
        ⟨"Flags".data, ⟨TypeName.string, 0⟩⟩], [["ag".data, "12".data, "cdn".data]]⟩
      ⟨7, [⟨"ag".data, 12, "cdn".data⟩]⟩ (by decide) (by decide)).2.2 0 (by decide) (by decide)

/-- Witness for the C8 theorem: lookup misses a name absent from the
header. -/
theorem summary_projection_failfast_witness :
    getFieldByHeaderName [⟨"Product".data, STRING_TYPE⟩] [] "Flags".data = none :=
  (summary_projection_failfast.1 [⟨"Product".data, STRING_TYPE⟩] [] "Flags".data).mpr
    (by decide)

/-- Witness for the C9 theorem: the seqn line may come first. -/
theorem seqn_position_independent_witness :
    parseResponseLines ["## seqn = 3".data, "A!STRING:0".data] =
      .ok ⟨3, [⟨"A".data, ⟨TypeName.string, 0⟩⟩], []⟩ :=
  (seqn_position_independent "## seqn = 3".data ["A!STRING:0".data] []
      (by decide) (by decide) (by decide) ⟨3, [⟨"A".data, ⟨TypeName.string, 0⟩⟩], []⟩).mp
    (by decide)

/-- Witness for the C10 theorem: `BOGUS` is rejected. -/
theorem typename_case_rules_witness :
    parseTypeName "BOGUS".data = .error (.UnknownTypeName "BOGUS".data) :=
  typename_case_rules.2.1 "BOGUS".data (by decide) (by decide) (by decide)

end Wownow
